import Mathlib

/-!
# Verification of the stakefish block-statistics pipeline

Shallow embedding of `src/stakefish.ipynb`, a three-stage pipeline:

1. **Bulk Fetcher** — for each day timestamp, retry a page fetch up to 5 times;
   on HTTP 200 append the returned page to `./data/blocks.pkl` (opened with
   mode `'wb'`, which truncates any previous file contents) and move on.
2. **Gap Reconciler** — read all pages into one flat list, compute
   `missing = set(range(0, max_index + 1)) - block_indexes`, fetch each missing
   index with the same retry policy, project recovered records to the four core
   fields, append them, and rewrite the whole store as a single page.
3. **Aggregator** — sort records by `block_index`, take consecutive timestamp
   differences in minutes, and compute mean / sample stdev / Gaussian tail
   probability at the 120-minute threshold / empirical tail probability /
   a "days between long gaps" estimate.

Modelling conventions:
* records are `Record`; API records may carry extra fields beyond the four the
  notebook uses, modelled by the `extras` association list;
* the persisted store is `List (List Record)` — one element per pickled page;
  reading the store back is `List.flatten`;
* a network attempt is a function `ℕ → ℕ × α`: try number to (HTTP status,
  payload); the notebook's ms-timestamps and URLs are irrelevant to the claims;
* exact arithmetic (`ℤ`, `ℚ`, `ℝ`) replaces Python floats; Python's
  `ZeroDivisionError` on division by zero becomes an explicit `Except` error;
* iteration order over a Python `set` is unspecified; the embedding fixes the
  ascending order (`Finset.sort`), which only matters for list-level equalities
  of recovered blocks, never for any index-set statement.
-/

namespace Stakefish

/-- One block record as stored by the notebook.  The four core fields mirror
the dictionary keys `hash`, `height`, `time`, `block_index`; `extras` models
any further key/value pairs a raw API response may carry (the bulk endpoint's
records are stored unprojected, so they can have extras). -/
structure Record where
  hash : String
  height : Int
  time : Int
  block_index : Nat
  extras : List (String × String)
deriving DecidableEq, Repr

/-- Errors a stage can raise: Python's `statistics.StatisticsError`
(insufficient data for `mean`/`stdev`) and `ZeroDivisionError`. -/
inductive AggError
  | statisticsError
  | zeroDivisionError
deriving DecidableEq, Repr

/-- The retry loop shared (line for line) by the fetcher and the reconciler:
`for tries in range(5): request = ...; if request.status_code == 200: <use
payload>; break; else: sleep(0.1)`.  Returns the payload of the first attempt
among tries 0..4 whose status is 200, `none` if all five fail. -/
def retryUnit {α : Type} (attempt : ℕ → ℕ × α) : Option α :=
  (((List.range 5).map attempt).find? (fun r => r.1 == 200)).map Prod.snd

/-- The Bulk Fetcher stage.  `prevStore` is whatever `./data/blocks.pkl`
held before the stage; the notebook opens the file with `open(..., 'wb')`,
which truncates it, so the fold starts from `[]` and `prevStore` is ignored —
exactly as in the source.  Each day (one `attempt` function per time step)
appends one page on success (`pickle.dump(request.json(), output, ...)`) and
nothing on retry exhaustion. -/
def fetcherRun (_prevStore : List (List Record))
    (days : List (ℕ → ℕ × List Record)) : List (List Record) :=
  days.foldl
    (fun store attempt =>
      match retryUnit attempt with
      | some page => store ++ [page]
      | none => store)
    []

/-- `block_indexes = set(map(lambda block: block['block_index'], blocks))`. -/
def block_indexes (blocks : List Record) : Finset ℕ :=
  (blocks.map Record.block_index).toFinset

/-- The reconciler's missing-index computation:
`max_index = max(block_indexes)` (raises `ValueError` on an empty set, hence
the `Option`), `block_list = set(range(0, max_index + 1))`,
`missing_blocks = block_list - block_indexes`. -/
def missing_blocks (blocks : List Record) : Option (Finset ℕ) :=
  if h : (block_indexes blocks).Nonempty then
    some (Finset.range ((block_indexes blocks).max' h + 1) \ block_indexes blocks)
  else none

/-- The reconciler's projection
`{'hash': r['hash'], 'height': r['height'], 'time': r['time'],
'block_index': r['block_index']}`: keep the four core fields, drop extras. -/
def project (record : Record) : Record :=
  { hash := record.hash, height := record.height, time := record.time,
    block_index := record.block_index, extras := [] }

/-- The reconciler's recovery loop: for each missing index (set iteration,
fixed here to ascending order), run the retry loop against the block-height
endpoint (`fetch index try = (status, payload)`) and on success extend
`blocks_to_add` with the full `result['blocks']` list (all records sharing the
index, alternate-chain ones included); on exhaustion contribute nothing. -/
def blocks_to_add (missing : Finset ℕ) (fetch : ℕ → ℕ → ℕ × List Record) :
    List Record :=
  (missing.sort (· ≤ ·)).flatMap (fun block => (retryUnit (fetch block)).getD [])

/-- The full Gap Reconciler stage: read all pages (`flatten`), compute the
missing set (`none` models the `max()` exception on an empty store), recover
what it can, project, append, and persist the whole list as a single page
(the final `pickle.dump(blocks, output, ...)` over a fresh `'wb'` handle). -/
def reconcile (store : List (List Record)) (fetch : ℕ → ℕ → ℕ × List Record) :
    Option (List (List Record)) :=
  (missing_blocks store.flatten).map
    (fun missing => [store.flatten ++ (blocks_to_add missing fetch).map project])

/-- `sorted_blocks = sorted(blocks, key=lambda block: block['block_index'])`:
a stable sort by `block_index` (Python's `sorted` is stable, as is
`List.mergeSort`). -/
def sorted_blocks (blocks : List Record) : List Record :=
  blocks.mergeSort (fun a b => a.block_index ≤ b.block_index)

/-- `block_times = list(map(lambda block: block['time'], sorted_blocks))`. -/
def block_times (blocks : List Record) : List Int :=
  (sorted_blocks blocks).map Record.time

/-- `time_diff = [(block_times[i] - block_times[i-1])/60 for i in
range(1, len(block_times))]`, i.e. consecutive differences in minutes. -/
def time_diff (block_times : List Int) : List ℚ :=
  List.zipWith (fun previous current => ((current - previous : ℤ) : ℚ) / 60)
    block_times block_times.tail

/-- `statistics.mean`, which raises `StatisticsError` on an empty series. -/
def mean (xs : List ℚ) : Except AggError ℚ :=
  if xs = [] then .error .statisticsError else .ok (xs.sum / xs.length)

/-- The value `statistics.mean` returns on a non-empty series. -/
def meanVal (xs : List ℚ) : ℚ := xs.sum / xs.length

/-- The sample variance `statistics.stdev` takes the square root of:
`sum((x - mean)^2) / (n - 1)`. -/
def varianceVal (xs : List ℚ) : ℚ :=
  (xs.map (fun x => (x - meanVal xs) ^ 2)).sum / ((xs.length : ℚ) - 1)

/-- `statistics.stdev`: raises `StatisticsError` with fewer than two data
points, otherwise the square root of the sample variance. -/
noncomputable def stdev (xs : List ℚ) : Except AggError ℝ :=
  if xs.length < 2 then .error .statisticsError
  else .ok (Real.sqrt ((varianceVal xs : ℚ) : ℝ))

open Classical in
/-- Python float division: raises `ZeroDivisionError` on a zero denominator. -/
noncomputable def pdivR (a b : ℝ) : Except AggError ℝ :=
  if b = 0 then .error .zeroDivisionError else .ok (a / b)

/-- Python rational/float division on exact values, same error behaviour. -/
def pdivQ (a b : ℚ) : Except AggError ℚ :=
  if b = 0 then .error .zeroDivisionError else .ok (a / b)

/-- The Gauss error function `math.erf`,
`erf x = 2/sqrt(pi) * ∫_0^x exp(-t^2) dt`. -/
noncomputable def erf (x : ℝ) : ℝ :=
  2 / Real.sqrt Real.pi * ∫ t in (0:ℝ)..x, Real.exp (-t ^ 2)

/-- `cdf = (1 + math.erf((120 - avg) / stdev(time_diff) / math.sqrt(2))) / 2`
as a function of the mean and the standard deviation. -/
noncomputable def cdf (avg s : ℝ) : ℝ :=
  (1 + erf ((120 - avg) / s / Real.sqrt 2)) / 2

/-- `prob = 1 - cdf`: the notebook's theoretical tail probability of a gap of
at least 120 minutes under a Gaussian model. -/
noncomputable def prob (avg s : ℝ) : ℝ := 1 - cdf avg s

/-- Specification-side definition (for the refinement claim): the standard
normal CDF `Φ(x) = (1 + erf(x / sqrt 2)) / 2`, written from the spec's words,
to be compared against the code's `cdf`/`prob`. -/
noncomputable def specStdNormalCDF (x : ℝ) : ℝ :=
  (1 + erf (x / Real.sqrt 2)) / 2

/-- `actual = len(list(filter(lambda time: time >= 120, time_diff))) /
len(time_diff)`: the empirical tail probability. -/
def actual (time_diff : List ℚ) : ℚ :=
  ((time_diff.filter (fun time => 120 ≤ time)).length : ℚ) / (time_diff.length : ℚ)

/-- `long_block_deltas = len(list(filter(lambda time: time >= 120,
time_diff)))`: the count of long (≥ 120 min) gaps. -/
def long_block_deltas (time_diff : List ℚ) : ℕ :=
  (time_diff.filter (fun time => 120 ≤ time)).length

/-- Everything the aggregator cell prints. -/
structure AggResult where
  avg : ℚ
  stdevVal : ℝ
  probVal : ℝ
  actualVal : ℚ
  days_between_long_blocks : ℤ

/-- The statistics cell of the notebook, in evaluation order:
`avg = mean(time_diff)`;
`cdf = (1 + math.erf((120 - avg)/stdev(time_diff)/math.sqrt(2)))/2`
(where the division by the stdev is the one that can raise
`ZeroDivisionError`); `prob = 1 - cdf`;
`actual = len(filter(>= 120)) / len(time_diff)`;
`days_between_long_blocks = round(avg / actual / 60)` (raises
`ZeroDivisionError` when no gap reaches 120 minutes). -/
noncomputable def aggregate (time_diff : List ℚ) : Except AggError AggResult := do
  let avg ← mean time_diff
  let s ← stdev time_diff
  let z ← pdivR ((120 : ℝ) - (avg : ℝ)) s
  let cdfv := (1 + erf (z / Real.sqrt 2)) / 2
  let probv := 1 - cdfv
  let actualv ← pdivQ ((time_diff.filter (fun time => 120 ≤ time)).length : ℚ)
    (time_diff.length : ℚ)
  let q ← pdivQ avg actualv
  return ⟨avg, s, probv, actualv, round (q / 60)⟩

/-! ## Concrete data used by witnesses and counterexamples -/

/-- Four records with indices `{0, 1, 3, 5}` (the spec's worked example). -/
def exBlocks : List Record :=
  [⟨"a", 0, 0, 0, []⟩, ⟨"b", 1, 600, 1, []⟩, ⟨"c", 3, 1800, 3, []⟩,
    ⟨"d", 5, 3000, 5, []⟩]

/-- Records with a duplicated index 1; the later duplicate has an *earlier*
timestamp, so the duplicated pair contributes a negative delta. -/
def dupBlocks : List Record :=
  [⟨"a", 0, 0, 0, []⟩, ⟨"b", 1, 600, 1, []⟩, ⟨"c", 1, 540, 1, []⟩]

/-- A lone genesis-style record (index 0). -/
def rec0 : Record := ⟨"g", 0, 0, 0, []⟩

/-- A day whose every fetch attempt fails with HTTP 500. -/
def allFailDay : ℕ → ℕ × List Record := fun _ => (500, [])

/-- A day failing four times, then succeeding on the fifth attempt. -/
def fifthOkDay : ℕ → ℕ × List Record :=
  fun tries => if tries = 4 then (200, [rec0]) else (500, [])

/-- A block-height endpoint that fails every attempt for every index. -/
def failFetch : ℕ → ℕ → ℕ × List Record := fun _ _ => (500, [])

/-- Raw alternate-chain records sharing index 1, carrying an extra field. -/
def recB1 : Record := ⟨"b1", 1, 50, 1, [("next_block", "x")]⟩

/-- Second record at the same height, also with an extra field. -/
def recB1x : Record := ⟨"b1x", 1, 70, 1, [("next_block", "y")]⟩

/-- A store holding indices 0 and 2 on one page — index 1 is missing. -/
def storeC9 : List (List Record) :=
  [[⟨"a0", 0, 10, 0, []⟩, ⟨"a2", 2, 130, 2, []⟩]]

/-- A block-height endpoint that returns both index-1 records first try. -/
def fetch9 : ℕ → ℕ → ℕ × List Record :=
  fun block _ => if block = 1 then (200, [recB1, recB1x]) else (500, [])

/-! ## Helper lemmas -/

theorem bind_ok_eq {ε α β : Type} (a : α) (f : α → Except ε β) :
    (Except.ok a >>= f : Except ε β) = f a := rfl

theorem bind_error_eq {ε α β : Type} (e : ε) (f : α → Except ε β) :
    (Except.error e >>= f : Except ε β) = Except.error e := rfl

theorem map_error_eq {ε α β : Type} (e : ε) (f : α → β) :
    (f <$> (Except.error e : Except ε α)) = Except.error e := rfl

theorem mem_block_indexes {blocks : List Record} {i : ℕ} :
    i ∈ block_indexes blocks ↔ ∃ r ∈ blocks, r.block_index = i := by
  simp only [block_indexes, List.mem_toFinset, List.mem_map]

theorem block_indexes_nonempty {blocks : List Record} (h : blocks ≠ []) :
    (block_indexes blocks).Nonempty := by
  simp only [block_indexes]
  rw [List.toFinset_nonempty_iff]
  simpa using h

theorem reconcile_eq (store : List (List Record))
    (fetch : ℕ → ℕ → ℕ × List Record) (missing : Finset ℕ)
    (h : missing_blocks store.flatten = some missing) :
    reconcile store fetch =
      some [store.flatten ++ (blocks_to_add missing fetch).map project] := by
  simp only [reconcile, h, Option.map_some']

theorem retryUnit_all_fail {α : Type} (attempt : ℕ → ℕ × α)
    (h : ∀ i, i < 5 → (attempt i).1 ≠ 200) : retryUnit attempt = none := by
  unfold retryUnit
  rw [List.find?_eq_none.mpr]
  · rfl
  · intro x hx
    simp only [List.mem_map, List.mem_range] at hx
    obtain ⟨i, hi, rfl⟩ := hx
    simpa using h i hi

theorem retryUnit_fifth {α : Type} (attempt : ℕ → ℕ × α)
    (h : ∀ i, i < 4 → (attempt i).1 ≠ 200) (h4 : (attempt 4).1 = 200) :
    retryUnit attempt = some (attempt 4).2 := by
  have b0 : ((attempt 0).1 == 200) = false := by simpa using h 0 (by norm_num)
  have b1 : ((attempt 1).1 == 200) = false := by simpa using h 1 (by norm_num)
  have b2 : ((attempt 2).1 == 200) = false := by simpa using h 2 (by norm_num)
  have b3 : ((attempt 3).1 == 200) = false := by simpa using h 3 (by norm_num)
  have b4 : ((attempt 4).1 == 200) = true := by simpa using h4
  have hr : List.range 5 = [0, 1, 2, 3, 4] := by decide
  have hfind : ((List.range 5).map attempt).find? (fun r => r.1 == 200) =
      some (attempt 4) := by
    rw [hr]
    simp only [List.map_cons, List.map_nil, List.find?, b0, b1, b2, b3, b4]
  unfold retryUnit
  rw [hfind]
  rfl

/-! ## C1 — the missing-index set -/

/-- C1: for every non-empty record list, the reconciler's missing-index set is
exactly `{0 .. max observed index}` minus the observed indices — an index is
missing iff it is at most some observed index and is itself unobserved — and
on observed indices `{0, 1, 3, 5}` it comes out as `{2, 4}`. -/
theorem missing_blocks_spec :
    (∀ blocks : List Record, blocks ≠ [] →
      ∃ missing : Finset ℕ, missing_blocks blocks = some missing ∧
        ∀ i : ℕ, i ∈ missing ↔
          ((∃ r ∈ blocks, i ≤ r.block_index) ∧ ∀ r ∈ blocks, r.block_index ≠ i))
    ∧ missing_blocks exBlocks = some {2, 4} := by
  constructor
  · intro blocks h
    have hne : (block_indexes blocks).Nonempty := block_indexes_nonempty h
    refine ⟨_, by rw [missing_blocks, dif_pos hne], ?_⟩
    intro i
    rw [Finset.mem_sdiff, Finset.mem_range, Nat.lt_succ_iff]
    constructor
    · rintro ⟨hle, hnot⟩
      constructor
      · have hmem := (block_indexes blocks).max'_mem hne
        rw [mem_block_indexes] at hmem
        obtain ⟨r, hr, hri⟩ := hmem
        exact ⟨r, hr, by rw [hri]; exact hle⟩
      · intro r hr hri
        exact hnot (mem_block_indexes.mpr ⟨r, hr, hri⟩)
    · rintro ⟨⟨r, hr, hri⟩, hnot⟩
      refine ⟨le_trans hri (Finset.le_max' _ _ (mem_block_indexes.mpr ⟨r, hr, rfl⟩)), ?_⟩
      intro hmem
      obtain ⟨r', hr', hri'⟩ := mem_block_indexes.mp hmem
      exact hnot r' hr' hri'
  · decide

/-- Witness for C1 at the concrete `{0, 1, 3, 5}` store. -/
theorem missing_blocks_spec_witness :
    ∃ missing : Finset ℕ, missing_blocks exBlocks = some missing ∧
      ∀ i : ℕ, i ∈ missing ↔
        ((∃ r ∈ exBlocks, i ≤ r.block_index) ∧ ∀ r ∈ exBlocks, r.block_index ≠ i) :=
  missing_blocks_spec.1 exBlocks (by decide)

/-! ## C2 — degenerate statistical input -/

/-- C2: evaluating the aggregator cell at degenerate inputs.  The empty delta
series does surface as the distinct insufficient-data `StatisticsError` (from
`statistics.mean`), but a zero-variance series (`[60, 60, 60]`, stdev 0) and a
series with zero long gaps (`[50, 60, 70]`, `actual = 0`) both propagate a
plain `ZeroDivisionError` — contradicting the spec's requirement that these be
reported as a distinct insufficient-data condition. -/
theorem aggregate_degenerate_divzero :
    aggregate [] = .error .statisticsError
    ∧ aggregate [60, 60, 60] = .error .zeroDivisionError
    ∧ aggregate [50, 60, 70] = .error .zeroDivisionError := by
  refine ⟨?_, ?_, ?_⟩
  · have hm : mean [] = .error .statisticsError := rfl
    rw [aggregate, hm, bind_error_eq]
  · have hv : varianceVal [60, 60, 60] = 0 := by
      norm_num [varianceVal, meanVal]
    have hm : mean [60, 60, 60] = .ok 60 := by
      rw [mean, if_neg (by simp)]
      norm_num
    have hs : stdev [60, 60, 60] = .ok 0 := by
      rw [stdev, if_neg (by norm_num), hv]
      norm_num
    rw [aggregate, hm, bind_ok_eq, hs, bind_ok_eq, pdivR, if_pos rfl, bind_error_eq]
  · have hv : varianceVal [50, 60, 70] = 100 := by
      norm_num [varianceVal, meanVal]
    have hm : mean [50, 60, 70] = .ok 60 := by
      rw [mean, if_neg (by simp)]
      norm_num
    have hs : stdev [50, 60, 70] = .ok (Real.sqrt 100) := by
      rw [stdev, if_neg (by norm_num), hv]
      norm_num
    have hsnz : Real.sqrt 100 ≠ 0 := by
      rw [Ne, Real.sqrt_eq_zero']
      norm_num
    have hfilter : ([50, 60, 70] : List ℚ).filter (fun time => 120 ≤ time) = [] := by
      norm_num [List.filter]
    rw [aggregate, hm, bind_ok_eq, hs, bind_ok_eq, pdivR, if_neg hsnz, bind_ok_eq,
      hfilter, pdivQ]
    norm_num
    rw [bind_ok_eq, pdivQ, if_pos rfl, map_error_eq]

/-! ## C3 — the store is *not* append-only across fetch-stage runs -/

/-- C3 counterexample: a record persisted before the Bulk Fetcher runs is gone
afterwards, because the stage opens the store with truncating `'wb'` mode —
here the run appends nothing (its one day exhausts all retries), yet the
record has vanished. -/
theorem fetcher_truncates_prior_store :
    rec0 ∈ ([[rec0]] : List (List Record)).flatten
    ∧ fetcherRun [[rec0]] [allFailDay] = []
    ∧ rec0 ∉ (fetcherRun [[rec0]] [allFailDay]).flatten := by
  refine ⟨by decide, by decide, by decide⟩

/-- C3 amended: *within* a single Bulk Fetcher run the store is append-only —
processing one more day leaves the pages written so far untouched and appends
at most one page — but the stage's output never depends on the previously
persisted store (truncating open), so records present before the stage runs
are not preserved. -/
theorem fetcher_append_only_within_run :
    (∀ (prev : List (List Record)) (days : List (ℕ → ℕ × List Record))
        (attempt : ℕ → ℕ × List Record),
      fetcherRun prev (days ++ [attempt]) =
        fetcherRun prev days ++ ((retryUnit attempt).map (fun page => [page])).getD [])
    ∧ (∀ (prev prev2 : List (List Record)) (days : List (ℕ → ℕ × List Record)),
      fetcherRun prev days = fetcherRun prev2 days) := by
  constructor
  · intro prev days attempt
    simp only [fetcherRun, List.foldl_append, List.foldl_cons, List.foldl_nil]
    cases retryUnit attempt <;> simp
  · intro _ _ _
    rfl

/-! ## C5 — the retry bound -/

/-- C5: a fetch unit whose five attempts all return a non-200 status yields no
payload and appends nothing to the store (and, being a total function, lets no
exception escape); a unit failing four times and succeeding on the fifth
attempt yields that fifth payload and appends exactly one page. -/
theorem retry_bound :
    (∀ attempt : ℕ → ℕ × List Record,
      (∀ i, i < 5 → (attempt i).1 ≠ 200) →
        retryUnit attempt = none ∧ ∀ prev, fetcherRun prev [attempt] = [])
    ∧ (∀ attempt : ℕ → ℕ × List Record,
      (∀ i, i < 4 → (attempt i).1 ≠ 200) → (attempt 4).1 = 200 →
        retryUnit attempt = some (attempt 4).2 ∧
          ∀ prev, fetcherRun prev [attempt] = [(attempt 4).2]) := by
  constructor
  · intro attempt h
    have hnone := retryUnit_all_fail attempt h
    refine ⟨hnone, ?_⟩
    intro prev
    simp only [fetcherRun, List.foldl_cons, List.foldl_nil, hnone]
  · intro attempt h h4
    have hsome := retryUnit_fifth attempt h h4
    refine ⟨hsome, ?_⟩
    intro prev
    simp only [fetcherRun, List.foldl_cons, List.foldl_nil, hsome]
    rfl

/-- Witness for C5: an all-failing day appends nothing; a day that succeeds
only on try 4 (the fifth attempt) appends exactly its one page. -/
theorem retry_bound_witness :
    retryUnit allFailDay = none ∧ fetcherRun [[rec0]] [allFailDay] = []
    ∧ retryUnit fifthOkDay = some (fifthOkDay 4).2
    ∧ fetcherRun [[rec0]] [fifthOkDay] = [(fifthOkDay 4).2] := by
  have h1 := retry_bound.1 allFailDay (by intro i _; simp [allFailDay])
  have h2 := retry_bound.2 fifthOkDay (by intro i hi; interval_cases i <;> decide)
    (by decide)
  exact ⟨h1.1, h1.2 [[rec0]], h2.1, h2.2 [[rec0]]⟩

/-! ## C4 — reconciler idempotence -/

theorem blocks_to_add_eq_nil (missing : Finset ℕ)
    (fetch : ℕ → ℕ → ℕ × List Record)
    (h : ∀ b, (retryUnit (fetch b)).getD [] = []) :
    blocks_to_add missing fetch = [] := by
  have hall : ∀ l : List ℕ,
      l.flatMap (fun block => (retryUnit (fetch block)).getD []) = [] := by
    intro l
    induction l with
    | nil => rfl
    | cons a t ih => simp [List.flatMap_cons, h, ih]
  exact hall _

/-- C4: when the missing-index set is empty the Gap Reconciler persists
exactly the flat record list it read (a no-op modulo the page structure); and
with no new data recoverable from upstream (every missing index's retry loop
yields nothing), one run and a second run both persist that same flat list, so
the store's index set is unchanged after running the Reconciler twice. -/
theorem reconciler_idempotent :
    (∀ (store : List (List Record)) (fetch : ℕ → ℕ → ℕ × List Record),
      missing_blocks store.flatten = some ∅ →
        reconcile store fetch = some [store.flatten])
    ∧ (∀ (store : List (List Record)) (fetch : ℕ → ℕ → ℕ × List Record),
      (∀ b, (retryUnit (fetch b)).getD [] = []) →
      ∀ missing : Finset ℕ, missing_blocks store.flatten = some missing →
        reconcile store fetch = some [store.flatten]
        ∧ reconcile [store.flatten] fetch = some [store.flatten]
        ∧ block_indexes (([store.flatten] : List (List Record)).flatten) =
            block_indexes store.flatten) := by
  constructor
  · intro store fetch hm
    rw [reconcile_eq store fetch ∅ hm]
    simp [blocks_to_add, Finset.sort_empty]
  · intro store fetch hno missing hm
    have hadd : blocks_to_add missing fetch = [] :=
      blocks_to_add_eq_nil missing fetch hno
    have hflat : (([store.flatten] : List (List Record))).flatten = store.flatten := by
      simp
    have r1 : reconcile store fetch = some [store.flatten] := by
      rw [reconcile_eq store fetch missing hm, hadd]
      simp
    have hm2 : missing_blocks (([store.flatten] : List (List Record))).flatten =
        some missing := by
      rw [hflat]
      exact hm
    have r2 : reconcile [store.flatten] fetch = some [store.flatten] := by
      rw [reconcile_eq _ fetch missing hm2, hadd]
      simp [hflat]
    exact ⟨r1, r2, by rw [hflat]⟩

/-- Witness for C4: a complete one-record store (index 0 only), with an
upstream that never delivers, reconciles to the same flat list twice. -/
theorem reconciler_idempotent_witness :
    reconcile [[rec0]] failFetch = some [([[rec0]] : List (List Record)).flatten]
    ∧ reconcile [([[rec0]] : List (List Record)).flatten] failFetch =
        some [([[rec0]] : List (List Record)).flatten] := by
  have h := reconciler_idempotent.2 [[rec0]] failFetch (fun b => rfl) ∅ (by decide)
  exact ⟨h.1, h.2.1⟩

/-! ## C9 — projection and full-rewrite persist -/

/-- C9: the Reconciler persists, as a single full overwrite, all pre-existing
records followed by every recovered record projected to exactly the four core
fields (`extras` emptied, the core fields preserved verbatim by `project`);
every record the by-height endpoint returns for a missing index — including
all alternate-chain records sharing that index — is kept; and on a concrete
store missing index 1, where the endpoint returns two index-1 records carrying
extra fields, both are appended and both lose exactly their extra fields. -/
theorem reconciler_projection :
    (∀ (store : List (List Record)) (fetch : ℕ → ℕ → ℕ × List Record)
        (missing : Finset ℕ), missing_blocks store.flatten = some missing →
      reconcile store fetch =
        some [store.flatten ++ (blocks_to_add missing fetch).map project]
      ∧ ∀ r ∈ (blocks_to_add missing fetch).map project, r.extras = [])
    ∧ (∀ r : Record, project r = ⟨r.hash, r.height, r.time, r.block_index, []⟩)
    ∧ (∀ (missing : Finset ℕ) (fetch : ℕ → ℕ → ℕ × List Record) (b : ℕ),
        b ∈ missing → ∀ r ∈ (retryUnit (fetch b)).getD [],
          r ∈ blocks_to_add missing fetch)
    ∧ reconcile storeC9 fetch9 =
        some [[⟨"a0", 0, 10, 0, []⟩, ⟨"a2", 2, 130, 2, []⟩,
          ⟨"b1", 1, 50, 1, []⟩, ⟨"b1x", 1, 70, 1, []⟩]] := by
  refine ⟨?_, fun r => rfl, ?_, ?_⟩
  · intro store fetch missing hm
    refine ⟨reconcile_eq store fetch missing hm, ?_⟩
    intro r hr
    rw [List.mem_map] at hr
    obtain ⟨r', _, rfl⟩ := hr
    rfl
  · intro missing fetch b hb r hr
    exact List.mem_flatMap.mpr ⟨b, (Finset.mem_sort _).mpr hb, hr⟩
  · have hm : missing_blocks (List.flatten storeC9) = some {1} := by decide
    rw [reconcile_eq storeC9 fetch9 {1} hm]
    have hsort : Finset.sort (· ≤ ·) ({1} : Finset ℕ) = [1] :=
      Finset.sort_singleton _ _
    have hadd : blocks_to_add {1} fetch9 = [recB1, recB1x] := by
      simp only [blocks_to_add, hsort, List.flatMap_cons, List.flatMap_nil,
        List.append_nil]
      rfl
    rw [hadd]
    rfl

/-- Witness for C9 at the concrete one-gap store. -/
theorem reconciler_projection_witness :
    reconcile storeC9 fetch9 =
      some [storeC9.flatten ++ (blocks_to_add {1} fetch9).map project] :=
  (reconciler_projection.1 storeC9 fetch9 {1} (by decide)).1

/-! ## C10 — no stage deduplicates -/

/-- C10: no stage deduplicates records.  The Reconciler persists the whole
flat list it read (duplicated indices and all) plus recovered records; the
Aggregator's sort is a permutation, so every duplicate survives with its
multiplicity; the delta series counts duplicates (`length = record count - 1`);
and on a concrete store where index 1 appears twice, both copies survive the
sort and the duplicated pair contributes its own negative delta. -/
theorem no_deduplication :
    (∀ (store : List (List Record)) (fetch : ℕ → ℕ → ℕ × List Record)
        (missing : Finset ℕ), missing_blocks store.flatten = some missing →
      reconcile store fetch =
        some [store.flatten ++ (blocks_to_add missing fetch).map project])
    ∧ (∀ blocks : List Record, (sorted_blocks blocks).Perm blocks)
    ∧ (∀ (blocks : List Record) (p : Record → Bool),
        (sorted_blocks blocks).countP p = blocks.countP p)
    ∧ (∀ ts : List Int, (time_diff ts).length = ts.length - 1)
    ∧ (sorted_blocks dupBlocks).countP (fun r => r.block_index == 1) = 2
    ∧ time_diff (block_times dupBlocks) = [10, -1] := by
  have hs : sorted_blocks dupBlocks = dupBlocks :=
    List.mergeSort_of_sorted (by decide)
  refine ⟨?_, ?_, ?_, ?_, ?_, ?_⟩
  · intro store fetch missing hm
    exact reconcile_eq store fetch missing hm
  · intro blocks
    exact List.mergeSort_perm _ _
  · intro blocks p
    exact (List.mergeSort_perm blocks _).countP_eq p
  · intro ts
    simp only [time_diff]
    rw [List.length_zipWith, List.length_tail]
    omega
  · rw [show sorted_blocks dupBlocks = dupBlocks from hs]
    decide
  · have ht : List.map Record.time dupBlocks = [0, 600, 540] := rfl
    simp only [block_times, hs, ht, time_diff, List.tail_cons,
      List.zipWith_cons_cons, List.zipWith_nil_right]
    norm_num

/-- Witness for C10: the duplicated-index store passes through the Reconciler
with both duplicates intact. -/
theorem no_deduplication_witness :
    reconcile [dupBlocks] failFetch =
      some [([dupBlocks] : List (List Record)).flatten ++
        (blocks_to_add ∅ failFetch).map project] :=
  no_deduplication.1 [dupBlocks] failFetch ∅ (by decide)

/-! ## C6 — the time-delta series -/

/-- C6: the aggregator's delta series is taken over the records sorted
ascending by `block_index` (a permutation of the store), each entry is
`(timestamp[i] - timestamp[i-1]) / 60`, and its length is exactly
`record count - 1` when there is at least one record and zero when there are
at most one. -/
theorem time_diff_spec :
    (∀ blocks : List Record,
      List.Pairwise (fun a b => a.block_index ≤ b.block_index)
        (sorted_blocks blocks))
    ∧ (∀ blocks : List Record, (sorted_blocks blocks).Perm blocks)
    ∧ (∀ blocks : List Record,
        block_times blocks = (sorted_blocks blocks).map Record.time)
    ∧ (∀ blocks : List Record, 1 ≤ blocks.length →
        (time_diff (block_times blocks)).length = blocks.length - 1)
    ∧ (∀ blocks : List Record, blocks.length ≤ 1 →
        time_diff (block_times blocks) = [])
    ∧ (∀ (ts : List Int) (i : ℕ) (h1 : i < (time_diff ts).length)
        (h2 : i + 1 < ts.length) (h3 : i < ts.length),
        (time_diff ts).get ⟨i, h1⟩ =
          ((ts.get ⟨i + 1, h2⟩ - ts.get ⟨i, h3⟩ : ℤ) : ℚ) / 60) := by
  have hlen : ∀ blocks : List Record,
      (time_diff (block_times blocks)).length = blocks.length - 1 := by
    intro blocks
    have hbt : (block_times blocks).length = blocks.length := by
      simp [block_times, List.length_mergeSort, sorted_blocks]
    simp only [time_diff]
    rw [List.length_zipWith, List.length_tail, hbt]
    omega
  refine ⟨?_, ?_, fun blocks => rfl, ?_, ?_, ?_⟩
  · intro blocks
    have htrans : ∀ a b c : Record,
        (decide (a.block_index ≤ b.block_index)) = true →
        (decide (b.block_index ≤ c.block_index)) = true →
        (decide (a.block_index ≤ c.block_index)) = true := by
      intro a b c hab hbc
      simp only [decide_eq_true_eq] at *
      omega
    have htotal : ∀ a b : Record,
        ((decide (a.block_index ≤ b.block_index))
          || (decide (b.block_index ≤ a.block_index))) = true := by
      intro a b
      simpa using Nat.le_total a.block_index b.block_index
    have h := @List.sorted_mergeSort Record
      (fun a b => decide (a.block_index ≤ b.block_index)) htrans htotal blocks
    refine h.imp ?_
    intro a b hab
    simpa using hab
  · intro blocks
    exact List.mergeSort_perm blocks _
  · intro blocks _
    exact hlen blocks
  · intro blocks h
    have h0 : (time_diff (block_times blocks)).length = 0 := by
      rw [hlen blocks]
      omega
    exact List.eq_nil_of_length_eq_zero h0
  · intro ts i h1 h2 h3
    simp only [List.get_eq_getElem, time_diff] at *
    rw [List.getElem_zipWith]
    congr 1
    rw [List.getElem_tail]

/-- Witness for C6 at concrete stores and a concrete timestamp list. -/
theorem time_diff_spec_witness :
    (time_diff (block_times exBlocks)).length = exBlocks.length - 1
    ∧ time_diff (block_times [rec0]) = []
    ∧ (time_diff [(0:ℤ), 600]).get ⟨0, by decide⟩ =
        ((([(0:ℤ), 600]).get ⟨1, by decide⟩ - ([(0:ℤ), 600]).get ⟨0, by decide⟩
          : ℤ) : ℚ) / 60 :=
  ⟨time_diff_spec.2.2.2.1 exBlocks (by decide),
    time_diff_spec.2.2.2.2.1 [rec0] (by decide),
    time_diff_spec.2.2.2.2.2 [(0:ℤ), 600] 0 (by decide) (by decide) (by decide)⟩

/-! ## C7 — the Gaussian tail probability formula -/

theorem integrable_gauss : MeasureTheory.Integrable (fun t : ℝ => Real.exp (-t ^ 2)) := by
  simpa using integrable_exp_neg_mul_sq (by norm_num : (0:ℝ) < 1)

theorem erf_tail_repr {x : ℝ} (hx : 0 ≤ x) :
    erf x = 1 - 2 / Real.sqrt Real.pi * ∫ t in Set.Ioi x, Real.exp (-t ^ 2) := by
  have hπ : Real.sqrt Real.pi ≠ 0 :=
    ne_of_gt (Real.sqrt_pos.mpr Real.pi_pos)
  have htot : ∫ t in Set.Ioi (0:ℝ), Real.exp (-t ^ 2) = Real.sqrt Real.pi / 2 := by
    have h := integral_gaussian_Ioi 1
    simpa using h
  have hsplit : (∫ t in Set.Ioc 0 x, Real.exp (-t ^ 2))
      + (∫ t in Set.Ioi x, Real.exp (-t ^ 2)) = Real.sqrt Real.pi / 2 := by
    rw [← htot, ← MeasureTheory.setIntegral_union (Set.Ioc_disjoint_Ioi le_rfl)
      measurableSet_Ioi integrable_gauss.integrableOn integrable_gauss.integrableOn,
      Set.Ioc_union_Ioi_eq_Ioi hx]
  have hIoc : (∫ t in Set.Ioc 0 x, Real.exp (-t ^ 2))
      = Real.sqrt Real.pi / 2 - ∫ t in Set.Ioi x, Real.exp (-t ^ 2) := by
    linarith
  have hkey : 2 / Real.sqrt Real.pi * (Real.sqrt Real.pi / 2) = 1 := by
    field_simp
  simp only [erf]
  rw [intervalIntegral.integral_of_le hx, hIoc, mul_sub, hkey]

theorem gaussian_tail_le {x : ℝ} (hx : 1 ≤ x) :
    (∫ t in Set.Ioi x, Real.exp (-t ^ 2)) ≤ Real.exp (-x ^ 2) := by
  have hexp1 : MeasureTheory.IntegrableOn (fun t : ℝ => Real.exp (-t)) (Set.Ioi x) := by
    simpa using exp_neg_integrableOn_Ioi x (by norm_num : (0:ℝ) < 1)
  have hg : MeasureTheory.IntegrableOn
      (fun t : ℝ => Real.exp (x - x ^ 2) * Real.exp (-t)) (Set.Ioi x) :=
    hexp1.const_mul _
  have hmono : (∫ t in Set.Ioi x, Real.exp (-t ^ 2))
      ≤ ∫ t in Set.Ioi x, Real.exp (x - x ^ 2) * Real.exp (-t) := by
    apply MeasureTheory.setIntegral_mono_on integrable_gauss.integrableOn hg
      measurableSet_Ioi
    intro t ht
    rw [Set.mem_Ioi] at ht
    rw [← Real.exp_add]
    apply Real.exp_le_exp.mpr
    nlinarith
  calc (∫ t in Set.Ioi x, Real.exp (-t ^ 2))
      ≤ ∫ t in Set.Ioi x, Real.exp (x - x ^ 2) * Real.exp (-t) := hmono
    _ = Real.exp (x - x ^ 2) * ∫ t in Set.Ioi x, Real.exp (-t) :=
        MeasureTheory.integral_mul_left _ _
    _ = Real.exp (x - x ^ 2) * Real.exp (-x) := by rw [integral_exp_neg_Ioi]
    _ = Real.exp (-x ^ 2) := by
        rw [← Real.exp_add]
        ring_nf

theorem prob_ten_five_lt : prob 10 5 < 1.28e-9 / 100 := by
  have hs2 : Real.sqrt 2 ^ 2 = 2 := Real.sq_sqrt (by norm_num)
  have hs2nn : 0 ≤ Real.sqrt 2 := Real.sqrt_nonneg 2
  have hs2one : (1:ℝ) ≤ Real.sqrt 2 := by nlinarith
  have hs2pos : (0:ℝ) < Real.sqrt 2 := by linarith
  have harg : ((120:ℝ) - 10) / 5 / Real.sqrt 2 = 11 * Real.sqrt 2 := by
    rw [div_eq_iff hs2pos.ne']
    nlinarith
  have hx1 : (1:ℝ) ≤ 11 * Real.sqrt 2 := by nlinarith
  have h0x : (0:ℝ) ≤ 11 * Real.sqrt 2 := by linarith
  have hxsq : (11 * Real.sqrt 2) ^ 2 = 242 := by
    rw [mul_pow, hs2]
    norm_num
  have hprob : prob 10 5 = (1 - erf (11 * Real.sqrt 2)) / 2 := by
    simp only [prob, cdf, harg]
    ring
  have hT_le : (∫ t in Set.Ioi (11 * Real.sqrt 2), Real.exp (-t ^ 2))
      ≤ Real.exp (-242) := by
    have h := gaussian_tail_le hx1
    rwa [hxsq] at h
  have hT_nonneg : 0 ≤ ∫ t in Set.Ioi (11 * Real.sqrt 2), Real.exp (-t ^ 2) :=
    MeasureTheory.setIntegral_nonneg measurableSet_Ioi
      (fun t _ => (Real.exp_pos _).le)
  have hπ1 : 1 ≤ Real.sqrt Real.pi := by
    nlinarith [Real.sq_sqrt Real.pi_pos.le, Real.sqrt_nonneg Real.pi,
      Real.pi_gt_three]
  have hdiv : (∫ t in Set.Ioi (11 * Real.sqrt 2), Real.exp (-t ^ 2))
        / Real.sqrt Real.pi
      ≤ ∫ t in Set.Ioi (11 * Real.sqrt 2), Real.exp (-t ^ 2) :=
    div_le_self hT_nonneg hπ1
  have hexp_big : (2:ℝ) ^ (242:ℕ) < Real.exp 242 := by
    have h2a : Real.exp (242:ℝ) = Real.exp 1 ^ (242:ℕ) := by
      rw [show (242:ℝ) = ((242:ℕ):ℝ) * 1 by norm_num, Real.exp_nat_mul]
    rw [h2a]
    exact pow_lt_pow_left₀ (lt_trans (by norm_num) Real.exp_one_gt_d9)
      (by norm_num) (by norm_num)
  have hsmall : Real.exp (-242) < 1.28e-9 / 100 := by
    rw [Real.exp_neg]
    have hpos : (0:ℝ) < 2 ^ (242:ℕ) := by positivity
    have hinv : (Real.exp 242)⁻¹ ≤ ((2:ℝ) ^ (242:ℕ))⁻¹ :=
      inv_anti₀ hpos hexp_big.le
    have hfinal : ((2:ℝ) ^ (242:ℕ))⁻¹ < 1.28e-9 / 100 := by norm_num
    exact lt_of_le_of_lt hinv hfinal
  rw [hprob, erf_tail_repr h0x]
  have hring : (1 - (1 - 2 / Real.sqrt Real.pi *
      ∫ t in Set.Ioi (11 * Real.sqrt 2), Real.exp (-t ^ 2))) / 2
      = (∫ t in Set.Ioi (11 * Real.sqrt 2), Real.exp (-t ^ 2))
        / Real.sqrt Real.pi := by
    ring
  rw [hring]
  linarith

/-- C7 counterexample: the claim's reference example is false.  At mean 10 and
stdev 5 the theoretical tail probability is below `1.28e-9 / 100` — more than
two orders of magnitude under the claimed "approximately 1.28e-9" (the exact
value `1 - Φ(22)` is near 1e-107) — so in particular it is not within a factor
of two of 1.28e-9. -/
theorem prob_reference_value_false :
    prob 10 5 < 1.28e-9 / 100 ∧ ¬ (1.28e-9 / 2 ≤ prob 10 5) := by
  have h := prob_ten_five_lt
  constructor
  · exact h
  · intro hc
    linarith

/-- C7 amended: for any mean and positive standard deviation, the notebook's
theoretical tail probability at threshold 120 equals
`1 - (1 + erf((120 - m) / (s * sqrt 2))) / 2`, which is `1 - Φ((120 - m)/s)`
for the standard normal CDF `Φ` expressed via the error function; the
reference example is corrected: at mean 10 and stdev 5 the tail probability is
not approximately 1.28e-9 but smaller than `1.28e-9 / 100` (its exact value,
`1 - Φ(22)`, is astronomically small). -/
theorem prob_spec :
    (∀ m s : ℝ, 0 < s →
      prob m s = 1 - (1 + erf ((120 - m) / (s * Real.sqrt 2))) / 2
      ∧ prob m s = 1 - specStdNormalCDF ((120 - m) / s))
    ∧ prob 10 5 < 1.28e-9 / 100 := by
  constructor
  · intro m s _
    refine ⟨?_, rfl⟩
    simp only [prob, cdf, div_div]
  · exact prob_ten_five_lt

/-- Witness for C7's quantified part at the reference point
`mean = 10`, `stdev = 5`. -/
theorem prob_spec_witness :
    prob 10 5 = 1 - (1 + erf ((120 - 10) / (5 * Real.sqrt 2))) / 2
    ∧ prob 10 5 = 1 - specStdNormalCDF ((120 - 10) / 5) :=
  prob_spec.1 10 5 (by norm_num)

/-! ## C8 — empirical tail probability and long-gap count -/

/-- C8: the empirical tail probability is the count of deltas of at least 120
minutes divided by the total number of deltas (the same filter count the
long-gap cell reports), and the series `[60, 60, 180, 60]` has exactly one
long gap. -/
theorem actual_spec :
    (∀ xs : List ℚ, xs ≠ [] →
      actual xs = (long_block_deltas xs : ℚ) / (xs.length : ℚ))
    ∧ (∀ xs : List ℚ, long_block_deltas xs = xs.countP (fun time => 120 ≤ time))
    ∧ long_block_deltas [60, 60, 180, 60] = 1 := by
  refine ⟨fun xs _ => rfl, ?_, ?_⟩
  · intro xs
    exact (List.countP_eq_length_filter _ _).symm
  · norm_num [long_block_deltas, List.filter]

/-- Witness for C8 at the spec's example series. -/
theorem actual_spec_witness :
    actual [60, 60, 180, 60] =
      (long_block_deltas [60, 60, 180, 60] : ℚ) /
        (([60, 60, 180, 60] : List ℚ).length : ℚ) :=
  actual_spec.1 [60, 60, 180, 60] (by simp)

end Stakefish
